import Mathlib

/-!
Shallow embedding of `examples/cpal-rotating-noise.rs`.

The example builds a cpal output stream whose render closure
(function `run`, lines 56-72) latches a start timestamp with
`stream_start.get_or_insert(now)`, computes the elapsed seconds
(`now.duration_since(&start).unwrap()`), derives a rotating source
position `(x, z) = (radians.cos(), radians.sin())` with
`radians = secs * rotation_hz * 2.0 * PI`, and fills the destination
buffer through `write_data` (lines 83-93), which walks the buffer in
`chunks_mut(channels)`, draws one generator value per chunk and stores
that single value into every slot of the chunk.  `chunks_mut` yields a
final short chunk when `channels` does not divide the buffer length.

Modelling conventions:
* `f32` sample values are modelled as `ℚ` on the generator/write path
  (pure arithmetic on finitely many drawn values) and as `ℝ` on the
  trigonometric path (`cos`/`sin` have no executable model).
* cpal `StreamInstant` timestamps and `Duration` values are modelled as
  rational seconds; `duration_since` fails (returns `none`) exactly when
  the argument instant is later than `self`, matching cpal's `Option`
  result.  `Duration::as_secs_f32` is the identity in this model.
* The external `rand` crate is not part of this repository; `SmallRng`
  and `gen::<f32>()` are modelled from their documented contract (see
  `genF32`).
* In the source, `write_data`'s per-frame value supplier is the noise
  generator (the file leaves the `next_value` / `next_sample`
  identifiers unresolved; the module doc and the spec's RenderCallback
  description both say one noise sample is drawn per output frame), so
  `writeData` here draws directly from the generator state.
* The closure computes `x`/`z` but never consumes them (the example
  elides the actual HRTF filtering); the embedding keeps the written
  buffer in `CbResult` and exposes the per-invocation position as a
  function of the result (`invocationPos`).
-/

/-- Modelled from the spec: the `rand` crate's `SmallRng` is external to
this repository; its state is modelled as a natural number advanced by a
64-bit congruential update.  The theorems rely only on the properties
the spec's NoiseSource contract states: a draw yields a value in a
half-open unit range and advances the state exactly once. -/
structure SmallRng where
  state : ℕ
deriving DecidableEq

/-- One step of the generator state: a linear congruential update.  The
real `SmallRng` is a 64-bit xoshiro generator; the parameters here are
deliberately small (they keep term-level evaluation tractable) because
no claim depends on the particular pseudo-random sequence, only on the
interface contract. -/
def rngStep (s : ℕ) : ℕ :=
  (37 * s + 11) % 256

/-- Modelled from the spec: `rng.gen::<f32>()` (source line 69).  The
`rand` crate's uniform `f32` draw advances the generator exactly once
and forms the value from fresh bits of the new state scaled into the
half-open unit interval, so the value always lies in `[0, 1)`. -/
def genF32 (r : SmallRng) : ℚ × SmallRng :=
  (((rngStep r.state % 16 : ℕ) : ℚ) / (16 : ℚ), ⟨rngStep r.state⟩)

/-- Value of the k-th successive draw starting from generator state `r`. -/
def nthDraw : SmallRng → ℕ → ℚ
  | r, 0 => (genF32 r).1
  | r, k + 1 => nthDraw (genF32 r).2 k

/-- Source line 45: `let volume = 0.25;` (bound but never used again). -/
def volume : ℚ := 1 / 4

/-- Source line 46: `let rotation_hz = 0.5;`. -/
def rotationHz : ℚ := 1 / 2

/-- Source line 62: `let radians = secs * rotation_hz * 2.0 * PI;`. -/
noncomputable def radiansOf (secs rate : ℝ) : ℝ :=
  secs * rate * 2 * Real.pi

/-- Source line 63: `let x = radians.cos();`. -/
noncomputable def srcX (secs rate : ℝ) : ℝ := Real.cos (radiansOf secs rate)

/-- Source line 64: `let z = radians.sin();`. -/
noncomputable def srcZ (secs rate : ℝ) : ℝ := Real.sin (radiansOf secs rate)

/-- cpal `StreamInstant::duration_since`: `some (now - start)` when
`start ≤ now`, otherwise `none` (cpal returns `None` when the argument
is later than `self`). -/
def durationSince (now start : ℚ) : Option ℚ :=
  if start ≤ now then some (now - start) else none

/-- Fuel-indexed body of `write_data` (source lines 83-93): walk the
buffer in chunks of `channels` slots, draw one generator value per
chunk, convert it with `conv` (cpal `Sample::from::<f32>`) and store it
into every slot of the chunk.  For `1 ≤ channels` the head chunk
`x :: xs.take (channels - 1)` is exactly `(x :: xs).take channels`, and
the recursion continues on `(x :: xs).drop channels`, so a final short
chunk is written too, as with `chunks_mut`.  The fuel only bounds the
recursion; `writeData` supplies the buffer length, which always
suffices because every step consumes at least one slot.  (`channels = 0`
never occurs: `chunks_mut(0)` panics in Rust and the example always
passes `channels = 2`.) -/
def writeDataAux {α : Type} (conv : ℚ → α) (channels : ℕ) :
    ℕ → List α → SmallRng → List α × SmallRng
  | _, [], rng => ([], rng)
  | 0, _ :: _, rng => ([], rng)
  | fuel + 1, x :: xs, rng =>
      let rest := writeDataAux conv channels fuel (xs.drop (channels - 1)) (genF32 rng).2
      ((x :: xs.take (channels - 1)).map (fun _ => conv (genF32 rng).1) ++ rest.1, rest.2)

/-- Function `write_data` itself: one pass over the whole destination
buffer. -/
def writeData {α : Type} (conv : ℚ → α) (channels : ℕ) (output : List α)
    (rng : SmallRng) : List α × SmallRng :=
  writeDataAux conv channels output.length output rng

/-- Closure-captured state of the render callback: `stream_start`
(source line 47, an `Option` latched by `get_or_insert`) and the noise
generator (source line 50). -/
structure CbState where
  streamStart : Option ℚ
  rng : SmallRng
deriving DecidableEq

/-- Observable result of one successful callback invocation: the updated
closure state, the origin instant used (`start`, source line 59), the
elapsed seconds (`secs`, source line 61) and the written destination
buffer.  The closure's `x`/`z` are functions of `secs` alone (see
`invocationPos`) and are never consumed by the write path. -/
structure CbResult where
  state : CbState
  origin : ℚ
  secs : ℚ
  buffer : List ℚ
deriving DecidableEq

/-- The render closure (source lines 56-72): latch the start instant
with `get_or_insert`, compute the elapsed duration - whose `unwrap`
panics, modelled as `none`, when `duration_since` fails - and fill the
destination buffer via `write_data`.  The `f32` output branch is
modelled, so the sample conversion is the identity. -/
def renderCallback (channels : ℕ) (data : List ℚ) (st : CbState) (now : ℚ) :
    Option CbResult :=
  match durationSince now (st.streamStart.getD now) with
  | none => none
  | some sinceStart =>
      some ⟨⟨some (st.streamStart.getD now), (writeData id channels data st.rng).2⟩,
            st.streamStart.getD now, sinceStart, (writeData id channels data st.rng).1⟩

/-- Position of the source for an invocation, exactly as the closure
computes it (source lines 61-64). -/
noncomputable def invocationPos (res : CbResult) : ℝ × ℝ :=
  (srcX (res.secs : ℝ) (rotationHz : ℝ), srcZ (res.secs : ℝ) (rotationHz : ℝ))

/-- Azimuth in effect for frame `i` of an invocation's buffer.  The
closure computes the position once, before the write loop, and never
recomputes it per frame, so every frame of the invocation shares the
single per-call position. -/
noncomputable def frameAzimuth (res : CbResult) (_ : ℕ) : ℝ × ℝ :=
  invocationPos res

/-- Origins used by a run of successive callback invocations at the
given instants, starting from closure state `st`; a panicking invocation
kills the stream, so no further origins are recorded. -/
def streamOrigins (channels : ℕ) (data : List ℚ) : CbState → List ℚ → List ℚ
  | _, [] => []
  | st, now :: rest =>
      match renderCallback channels data st now with
      | none => []
      | some res => res.origin :: streamOrigins channels data res.state rest

/-- Unfolding lemma: draw number zero is the next value out of `r`. -/
theorem nthDraw_zero (r : SmallRng) : nthDraw r 0 = (genF32 r).1 := by
  simp [nthDraw]

/-- Unfolding lemma: draw number `k + 1` from `r` is draw number `k`
from the advanced state. -/
theorem nthDraw_succ (r : SmallRng) (k : ℕ) :
    nthDraw r (k + 1) = nthDraw (genF32 r).2 k := by
  simp [nthDraw]

/-- The written prefix of `writeDataAux` has the length of its input
buffer whenever the fuel covers that length. -/
theorem writeDataAux_length {α : Type} (conv : ℚ → α) (channels : ℕ) :
    ∀ (fuel : ℕ) (l : List α) (rng : SmallRng), l.length ≤ fuel →
      ((writeDataAux conv channels fuel l rng).1).length = l.length := by
  intro fuel
  induction fuel with
  | zero =>
      intro l rng h
      cases l with
      | nil => rfl
      | cons x xs => simp at h
  | succ fuel ih =>
      intro l rng h
      cases l with
      | nil => rfl
      | cons x xs =>
          have hxs : xs.length ≤ fuel := by
            simpa using Nat.lt_succ_iff.mp (Nat.lt_of_lt_of_le (by simp) h)
          have hdrop : (xs.drop (channels - 1)).length ≤ fuel := by
            simp only [List.length_drop]
            omega
          simp only [writeDataAux, List.length_append, List.length_map,
            List.length_cons, List.length_take,
            ih (xs.drop (channels - 1)) (genF32 rng).2 hdrop, List.length_drop]
          omega

/-- `write_data` preserves the buffer length. -/
theorem writeData_length {α : Type} (conv : ℚ → α) (channels : ℕ)
    (l : List α) (rng : SmallRng) :
    ((writeData conv channels l rng).1).length = l.length :=
  writeDataAux_length conv channels l.length l rng le_rfl

/-- Slot `i` of the buffer written by `writeDataAux` holds the converted
draw number `i / channels`: slots are covered chunk by chunk, one fresh
draw per chunk, including the final short chunk. -/
theorem writeDataAux_get {α : Type} (conv : ℚ → α) (channels : ℕ)
    (hch : 1 ≤ channels) :
    ∀ (fuel : ℕ) (l : List α) (rng : SmallRng) (i : ℕ),
      l.length ≤ fuel → i < l.length →
      ((writeDataAux conv channels fuel l rng).1)[i]? =
        some (conv (nthDraw rng (i / channels))) := by
  intro fuel
  induction fuel with
  | zero =>
      intro l rng i hf hi
      omega
  | succ fuel ih =>
      intro l rng i hf hi
      cases l with
      | nil => simp at hi
      | cons x xs =>
          have hxs : xs.length ≤ fuel := by
            simpa [Nat.succ_le_succ_iff] using hf
          have hdropfuel : (xs.drop (channels - 1)).length ≤ fuel := by
            simp only [List.length_drop]
            omega
          simp only [writeDataAux]
          set frame := (x :: xs.take (channels - 1)).map
            (fun _ => conv (genF32 rng).1) with hframe
          have hflen : frame.length = 1 + min (channels - 1) xs.length := by
            simp [hframe]
            omega
          by_cases hi' : i < frame.length
          · rw [List.getElem?_append, if_pos hi']
            have hich : i < channels := by omega
            have hdiv : i / channels = 0 := Nat.div_eq_of_lt hich
            rw [hdiv]
            have hbase : i < (x :: xs.take (channels - 1)).length := by
              simpa [hframe] using hi'
            rw [hframe, List.getElem?_map, List.getElem?_eq_getElem hbase]
            rfl
          · have hige : frame.length ≤ i := le_of_not_lt hi'
            have hchunk : frame.length = channels := by
              simp only [List.length_cons] at hi
              omega
            rw [List.getElem?_append_right hige, hchunk]
            have hlen : i - channels < (xs.drop (channels - 1)).length := by
              simp only [List.length_drop, List.length_cons] at hi ⊢
              omega
            rw [ih (xs.drop (channels - 1)) (genF32 rng).2 (i - channels)
              hdropfuel hlen]
            have hdiv : i / channels = (i - channels) / channels + 1 := by
              rw [Nat.div_eq i channels, if_pos ⟨by omega, by omega⟩]
            rw [hdiv, nthDraw_succ]

/-- Slot `i` of the buffer written by `write_data` holds the converted
draw number `i / channels`. -/
theorem writeData_get {α : Type} (conv : ℚ → α) (channels : ℕ)
    (hch : 1 ≤ channels) (l : List α) (rng : SmallRng) (i : ℕ)
    (hi : i < l.length) :
    ((writeData conv channels l rng).1)[i]? =
      some (conv (nthDraw rng (i / channels))) :=
  writeDataAux_get conv channels hch l.length l rng i le_rfl hi

/-- When the elapsed-duration computation succeeds, the callback reduces
to a fully applied success value. -/
theorem renderCallback_of_le (channels : ℕ) (data : List ℚ) (st : CbState)
    (now : ℚ) (hle : st.streamStart.getD now ≤ now) :
    renderCallback channels data st now =
      some ⟨⟨some (st.streamStart.getD now), (writeData id channels data st.rng).2⟩,
            st.streamStart.getD now, now - st.streamStart.getD now,
            (writeData id channels data st.rng).1⟩ := by
  unfold renderCallback durationSince
  rw [if_pos hle]

/-- When the latched origin lies strictly after the current timestamp,
`duration_since` fails and the `unwrap` panics: no result. -/
theorem renderCallback_of_lt (channels : ℕ) (data : List ℚ) (st : CbState)
    (now : ℚ) (hlt : now < st.streamStart.getD now) :
    renderCallback channels data st now = none := by
  unfold renderCallback durationSince
  rw [if_neg (not_le.mpr hlt)]

/-- Every successful invocation's buffer is exactly the `write_data`
output for the invocation's generator state: the timestamp and the
derived position never reach the write path. -/
theorem renderCallback_buffer (channels : ℕ) (data : List ℚ) (st : CbState)
    (now : ℚ) (res : CbResult)
    (h : renderCallback channels data st now = some res) :
    res.buffer = (writeData id channels data st.rng).1 := by
  by_cases hle : st.streamStart.getD now ≤ now
  · rw [renderCallback_of_le channels data st now hle] at h
    injection h with h'
    rw [← h']
  · rw [renderCallback_of_lt channels data st now (not_le.mp hle)] at h
    exact absurd h (by simp)

/-- A successful invocation uses the latched origin (or latches `now`)
and stores that same origin back into the state. -/
theorem renderCallback_origin (channels : ℕ) (data : List ℚ) (st : CbState)
    (now : ℚ) (res : CbResult)
    (h : renderCallback channels data st now = some res) :
    res.origin = st.streamStart.getD now ∧
      res.state.streamStart = some (st.streamStart.getD now) := by
  by_cases hle : st.streamStart.getD now ≤ now
  · rw [renderCallback_of_le channels data st now hle] at h
    injection h with h'
    rw [← h']
    exact ⟨rfl, rfl⟩
  · rw [renderCallback_of_lt channels data st now (not_le.mp hle)] at h
    exact absurd h (by simp)

/-- Once the origin is latched as `some t₀`, every later recorded origin
is `t₀` and the latch is never overwritten. -/
theorem streamOrigins_const (channels : ℕ) (data : List ℚ) (t₀ : ℚ) :
    ∀ (ts : List ℚ) (st : CbState), st.streamStart = some t₀ →
      ∀ o ∈ streamOrigins channels data st ts, o = t₀ := by
  intro ts
  induction ts with
  | nil =>
      intro st hst o ho
      simp [streamOrigins] at ho
  | cons now rest ih =>
      intro st hst o ho
      cases h : renderCallback channels data st now with
      | none => simp [streamOrigins, h] at ho
      | some res =>
          obtain ⟨horig, hstate⟩ := renderCallback_origin channels data st now res h
          simp only [streamOrigins, h] at ho
          rcases List.mem_cons.mp ho with ho | ho
          · rw [ho, horig, hst, Option.getD_some]
          · exact ih res.state (by rw [hstate, hst, Option.getD_some]) o ho

/-- C1, claim as stated, refuted: an invocation whose timestamp lies
before the latched origin makes the elapsed-duration computation fail,
and the callback panics (produces no output buffer at all) instead of
substituting zero elapsed time. -/
theorem c1_panic_counterexample :
    renderCallback 2 [(0 : ℚ), 0, 0, 0] ⟨some 5, ⟨0⟩⟩ 3 = none := by decide

/-- C1, amended: the callback panics (returns nothing) exactly when the
current timestamp lies strictly before the latched origin - there is no
zero-elapsed-time substitution - and whenever the elapsed-duration
computation succeeds it fills the whole destination buffer. -/
theorem c1_unwrap_panics (channels : ℕ) (data : List ℚ) (st : CbState)
    (now : ℚ) :
    (renderCallback channels data st now = none ↔
      now < st.streamStart.getD now) ∧
    ∀ res : CbResult, renderCallback channels data st now = some res →
      res.buffer.length = data.length := by
  constructor
  · constructor
    · intro h
      by_contra hlt
      rw [renderCallback_of_le channels data st now (not_lt.mp hlt)] at h
      exact absurd h (by simp)
    · intro hlt
      exact renderCallback_of_lt channels data st now hlt
  · intro res h
    rw [renderCallback_buffer channels data st now res h, writeData_length]

/-- C1 witness: at timestamp 3 with origin 5 the callback panics, and a
successful first invocation on a two-slot buffer writes both slots. -/
theorem c1_unwrap_panics_witness :
    renderCallback 2 [(0 : ℚ), 0] ⟨some 5, ⟨0⟩⟩ 3 = none ∧
    (renderCallback 2 [(0 : ℚ), 0] ⟨none, ⟨0⟩⟩ 0).map
      (fun res => res.buffer.length) = some 2 := by
  constructor
  · exact (c1_unwrap_panics 2 [(0 : ℚ), 0] ⟨some 5, ⟨0⟩⟩ 3).1.mpr (by decide)
  · cases h : renderCallback 2 [(0 : ℚ), 0] ⟨none, ⟨0⟩⟩ 0 with
    | none => exact absurd h (by decide)
    | some res =>
        rw [Option.map_some']
        rw [(c1_unwrap_panics 2 [(0 : ℚ), 0] ⟨none, ⟨0⟩⟩ 0).2 res h]
        rfl

/-- C2, claim as stated, refuted: on a five-slot buffer with two
channels, slot 4 (the trailing partial frame) does not keep its original
contents - it is overwritten - and all five slots receive a value, not
just the four slots of the two whole frames.  The buffer is instrumented
with `Option` cells: every original cell is `none` and the conversion
tags written values with `some`. -/
theorem c2_truncation_counterexample :
    ((writeData (fun v : ℚ => some v) 2 (List.replicate 5 (none : Option ℚ))
        ⟨0⟩).1)[4]? ≠ some (none : Option ℚ) ∧
    (writeData (fun v : ℚ => some v) 2 (List.replicate 5 (none : Option ℚ))
        ⟨0⟩).1.countP Option.isSome = 5 := by
  constructor
  · decide
  · decide

/-- C2, amended: `chunks_mut` covers the whole buffer, so every slot
`i < len` is written - slot `i` receives the draw for chunk number
`i / channels` - including the slots of a trailing partial frame; no
trailing slot is left unwritten. -/
theorem c2_all_slots_written (channels : ℕ) (l : List (Option ℚ))
    (r : SmallRng) (i : ℕ) (hch : 1 ≤ channels) (hi : i < l.length) :
    ((writeData (fun v : ℚ => some v) channels l r).1)[i]? =
      some (some (nthDraw r (i / channels))) :=
  writeData_get (fun v : ℚ => some v) channels hch l r i hi

/-- C2 witness: on the five-slot two-channel buffer, trailing slot 4 is
written with draw number 2. -/
theorem c2_all_slots_written_witness :
    ((writeData (fun v : ℚ => some v) 2 (List.replicate 5 (none : Option ℚ))
        ⟨0⟩).1)[4]? = some (some (nthDraw ⟨0⟩ 2)) := by
  have h := c2_all_slots_written 2 (List.replicate 5 (none : Option ℚ))
    ⟨0⟩ 4 (by decide) (by decide)
  simpa using h

/-- C3, claim as stated, refuted: at elapsed seconds 4 with the
configured rate one half, the closure passes the raw angle - exactly
`4 * π`, whose magnitude is not below `2 * π` - straight to `cos`; no
reduction modulo `2 * π` happens before the trigonometric functions. -/
theorem c3_no_reduction_counterexample :
    srcX 4 (1 / 2) = Real.cos (radiansOf 4 (1 / 2)) ∧
    radiansOf 4 (1 / 2) = 4 * Real.pi ∧
    ¬ |radiansOf 4 (1 / 2)| < 2 * Real.pi := by
  have h1 : radiansOf 4 (1 / 2) = 4 * Real.pi := by
    unfold radiansOf
    ring
  refine ⟨rfl, h1, ?_⟩
  rw [h1, abs_of_nonneg (by positivity)]
  have hpi : (0 : ℝ) < Real.pi := Real.pi_pos
  exact not_lt.mpr (by nlinarith)

/-- C3, amended: the angle handed to `cos` and `sin` is the raw
`secs * rate * 2 * π` with no modular reduction, and its magnitude is
unbounded: for every bound there is an elapsed time at the configured
rate whose raw angle exceeds it. -/
theorem c3_raw_angle_unbounded :
    (∀ s rate : ℝ, srcX s rate = Real.cos (radiansOf s rate) ∧
      srcZ s rate = Real.sin (radiansOf s rate)) ∧
    ∀ B : ℝ, ∃ s : ℝ, B < |radiansOf s (1 / 2)| := by
  constructor
  · intro s rate
    exact ⟨rfl, rfl⟩
  · intro B
    refine ⟨|B| + 1, ?_⟩
    have h1 : radiansOf (|B| + 1) (1 / 2) = (|B| + 1) * Real.pi := by
      unfold radiansOf
      ring
    rw [h1, abs_of_nonneg (by positivity)]
    have hpi : (3 : ℝ) < Real.pi := Real.pi_gt_three
    nlinarith [le_abs_self B, abs_nonneg B]

/-- C4 (confirmed): the render path's position is
`(cos angle, sin angle)` with `angle = secs * rate * 2π` - both for the
general `(secs, rate)` pair and for the position attached to a callback
invocation at the configured rotation rate - hence a deterministic pure
function of elapsed time and rate. -/
theorem c4_position_formula :
    (∀ s rate : ℝ, (srcX s rate, srcZ s rate) =
        (Real.cos (s * rate * (2 * Real.pi)),
         Real.sin (s * rate * (2 * Real.pi)))) ∧
    ∀ res : CbResult, invocationPos res =
        (Real.cos ((res.secs : ℝ) * (rotationHz : ℝ) * (2 * Real.pi)),
         Real.sin ((res.secs : ℝ) * (rotationHz : ℝ) * (2 * Real.pi))) := by
  constructor
  · intro s rate
    simp only [srcX, srcZ, radiansOf, Prod.mk.injEq]
    constructor
    · congr 1
      ring
    · congr 1
      ring
  · intro res
    simp only [invocationPos, srcX, srcZ, radiansOf, Prod.mk.injEq]
    constructor
    · congr 1
      ring
    · congr 1
      ring

/-- C5 (confirmed): starting from an unlatched state, the first
invocation latches its timestamp `t₀` as the origin, and every origin
used by any invocation of the run - first or later - is that same `t₀`;
the latch is never overwritten. -/
theorem c5_origin_latched_once (channels : ℕ) (data : List ℚ)
    (r : SmallRng) (t₀ : ℚ) (ts : List ℚ) (o : ℚ)
    (ho : o ∈ streamOrigins channels data ⟨none, r⟩ (t₀ :: ts)) : o = t₀ := by
  have hrc := renderCallback_of_le channels data ⟨none, r⟩ t₀ (by simp)
  simp only [streamOrigins, hrc, Option.getD_none] at ho
  rcases List.mem_cons.mp ho with ho | ho
  · exact ho
  · exact streamOrigins_const channels data t₀ ts _ rfl o ho

/-- C5 witness: a two-invocation run at timestamps 3 then 5 records
origin 3 both times. -/
theorem c5_origin_latched_once_witness :
    ((3 : ℚ) ∈ streamOrigins 2 [(0 : ℚ), 0] ⟨none, ⟨0⟩⟩ [3, 5]) ∧
    (3 : ℚ) = 3 :=
  ⟨by decide, c5_origin_latched_once 2 [(0 : ℚ), 0] ⟨0⟩ 3 [5] 3 (by decide)⟩

/-- C6 (confirmed): on a 512-slot destination buffer with two channels a
single invocation writes exactly 512 values (every slot, counted by the
`Option` instrumentation, and the output length is 512), and the azimuth
is a single per-invocation value: every frame index of the call sees the
same azimuth. -/
theorem c6_512_values_one_azimuth :
    ∀ r : SmallRng,
      ((writeData id 2 (List.replicate 512 (0 : ℚ)) r).1.length = 512 ∧
       (writeData (fun v : ℚ => some v) 2
          (List.replicate 512 (none : Option ℚ)) r).1.countP
            Option.isSome = 512) ∧
      ∀ (res : CbResult) (i j : ℕ), frameAzimuth res i = frameAzimuth res j := by
  intro r
  refine ⟨⟨?_, ?_⟩, fun res i j => rfl⟩
  · rw [writeData_length, List.length_replicate]
  · have hlen : (writeData (fun v : ℚ => some v) 2
        (List.replicate 512 (none : Option ℚ)) r).1.length = 512 := by
      rw [writeData_length, List.length_replicate]
    have hall : ∀ a ∈ (writeData (fun v : ℚ => some v) 2
        (List.replicate 512 (none : Option ℚ)) r).1, a.isSome = true := by
      intro a ha
      obtain ⟨n, hn⟩ := List.mem_iff_getElem?.mp ha
      obtain ⟨hnlen, -⟩ := List.getElem?_eq_some.mp hn
      rw [hlen] at hnlen
      have hget := writeData_get (fun v : ℚ => some v) 2 (by norm_num)
        (List.replicate 512 (none : Option ℚ)) r n
        (by rw [List.length_replicate]; exact hnlen)
      rw [hn] at hget
      obtain rfl : a = some (nthDraw r (n / 2)) := by
        exact Option.some.inj hget
      rfl
    rw [List.countP_eq_length.mpr hall, hlen]

/-- C7 (confirmed): every draw of the modelled noise source lies in
`[-1, 1)` - indeed in `[0, 1)` - and a draw advances the generator state
exactly once (the new state is one `rngStep` of the old). -/
theorem c7_draw_bounded_and_advances :
    ∀ r : SmallRng,
      (-1 ≤ (genF32 r).1 ∧ (genF32 r).1 < 1) ∧
      (genF32 r).2.state = rngStep r.state := by
  intro r
  have hval : (genF32 r).1 = ((rngStep r.state % 16 : ℕ) : ℚ) / (16 : ℚ) := rfl
  refine ⟨⟨?_, ?_⟩, rfl⟩
  · rw [hval]
    have h0 : (0 : ℚ) ≤ ((rngStep r.state % 16 : ℕ) : ℚ) / (16 : ℚ) := by
      positivity
    linarith
  · rw [hval, div_lt_one (by norm_num)]
    exact_mod_cast Nat.mod_lt _ (by norm_num)

/-- C8 (confirmed): `write_data` fills every slot of a frame with the
one value generated for that frame, so slots belonging to the same chunk
(equal `i / channels`) always hold equal values. -/
theorem c8_frame_slots_equal (channels : ℕ) (l : List ℚ) (r : SmallRng)
    (i j : ℕ) (hch : 1 ≤ channels) (hi : i < l.length) (hj : j < l.length)
    (hij : i / channels = j / channels) :
    ((writeData id channels l r).1)[i]? =
      ((writeData id channels l r).1)[j]? := by
  rw [writeData_get id channels hch l r i hi,
      writeData_get id channels hch l r j hj, hij]

/-- C8 witness: slots 0 and 1 (the two channels of frame 0) of a
four-slot stereo buffer hold the same value. -/
theorem c8_frame_slots_equal_witness :
    ((writeData id 2 [(0 : ℚ), 0, 0, 0] ⟨0⟩).1)[0]? =
      ((writeData id 2 [(0 : ℚ), 0, 0, 0] ⟨0⟩).1)[1]? :=
  c8_frame_slots_equal 2 [(0 : ℚ), 0, 0, 0] ⟨0⟩ 0 1 (by decide) (by decide)
    (by decide) (by decide)

/-- C9 (confirmed): two invocations from the same closure state on the
same destination buffer write identical contents whatever their
timestamps: neither the timestamp nor the derived position flows into
`write_data`. -/
theorem c9_buffer_ignores_timestamp (channels : ℕ) (data : List ℚ)
    (st : CbState) (n₁ n₂ : ℚ) (res₁ res₂ : CbResult)
    (h₁ : renderCallback channels data st n₁ = some res₁)
    (h₂ : renderCallback channels data st n₂ = some res₂) :
    res₁.buffer = res₂.buffer := by
  rw [renderCallback_buffer channels data st n₁ res₁ h₁,
      renderCallback_buffer channels data st n₂ res₂ h₂]

/-- C9 witness: invocations at timestamps 0 and 7 from the same fresh
state produce the same written buffer. -/
theorem c9_buffer_ignores_timestamp_witness :
    (renderCallback 1 [(0 : ℚ)] ⟨none, ⟨0⟩⟩ 0).map CbResult.buffer =
      (renderCallback 1 [(0 : ℚ)] ⟨none, ⟨0⟩⟩ 7).map CbResult.buffer := by
  cases h₁ : renderCallback 1 [(0 : ℚ)] ⟨none, ⟨0⟩⟩ 0 with
  | none => exact absurd h₁ (by decide)
  | some r₁ =>
      cases h₂ : renderCallback 1 [(0 : ℚ)] ⟨none, ⟨0⟩⟩ 7 with
      | none => exact absurd h₂ (by decide)
      | some r₂ =>
          rw [Option.map_some', Option.map_some',
            c9_buffer_ignores_timestamp 1 [(0 : ℚ)] ⟨none, ⟨0⟩⟩ 0 7 r₁ r₂ h₁ h₂]

/-- C10 (confirmed): `volume` is bound to one quarter but never applied:
every written slot holds the raw converted draw for its frame, and
scaling the first draw by `volume` would change it, so the output is not
attenuated. -/
theorem c10_volume_never_applied :
    volume = 1 / 4 ∧
    (∀ (channels : ℕ) (l : List ℚ) (r : SmallRng) (i : ℕ),
      1 ≤ channels → i < l.length →
      ((writeData id channels l r).1)[i]? =
        some (nthDraw r (i / channels))) ∧
    nthDraw ⟨0⟩ 0 ≠ volume * nthDraw ⟨0⟩ 0 := by
  refine ⟨rfl, ?_, ?_⟩
  · intro channels l r i hch hi
    simpa using writeData_get id channels hch l r i hi
  · have h0 : nthDraw ⟨0⟩ 0 = (11 : ℚ) / 16 := by
      norm_num [nthDraw, genF32, rngStep]
    rw [h0, volume]
    norm_num

/-- C10 witness: slot 2 of a three-slot stereo buffer holds draw number
one, unscaled. -/
theorem c10_volume_never_applied_witness :
    ((writeData id 2 [(0 : ℚ), 0, 0] ⟨0⟩).1)[2]? = some (nthDraw ⟨0⟩ 1) := by
  have h := c10_volume_never_applied.2.1 2 [(0 : ℚ), 0, 0] ⟨0⟩ 2
    (by decide) (by decide)
  simpa using h
